import Mathlib

/-
Verification of the newp2p rendezvous/signaling core and chunked transfer
coordinator.  The definitions below are shallow embeddings of the JavaScript /
TypeScript sources:

  * `SignalingServer` (enhanced WebSocket signaling server): peer registry,
    file-share directory, peer discovery, relay handlers, disconnection cascade.
  * `scripts/signaling-server.js`: room directory, `relayMessage`,
    `findPeerWithFile`.
  * `hooks/use-transfer-manager.ts`: transfer creation, per-chunk status
    updates with retry scheduling, cancellation, completion.
  * `hooks/use-p2p-network.ts`: binary chunk envelope codec
    (`handleChunkRequest` encode, `handleDataChannelMessage` decode).

JavaScript `Map` objects are modelled as association lists in iteration
(insertion) order; `Map.get` / `Map.set` / `Map.delete` become `mapLookup` /
`mapSet` / `mapDelete`.  Byte buffers are lists of naturals below 256; machine
integers are naturals reduced mod 2^32 where the code truncates.
-/

/-! ### Association-list model of JavaScript `Map` -/

/-- Model of `Map.get k`: first entry with the given key. -/
def mapLookup {α : Type} (k : String) : List (String × α) → Option α
  | [] => none
  | e :: rest => if e.1 = k then some e.2 else mapLookup k rest

/-- Model of `Map.delete k`: removes the entry with the given key (a JS `Map`
holds each key at most once, so filtering every occurrence coincides). -/
def mapDelete {α : Type} (k : String) : List (String × α) → List (String × α)
  | [] => []
  | e :: rest => if e.1 = k then mapDelete k rest else e :: mapDelete k rest

/-- Model of `Map.set k v`: replaces the value in place when the key is
present (JS `Map` keeps the original insertion position), appends otherwise. -/
def mapSet {α : Type} (k : String) (v : α) : List (String × α) → List (String × α)
  | [] => [(k, v)]
  | e :: rest => if e.1 = k then (k, v) :: rest else e :: mapSet k v rest

/-! ### ChunkProtocol binary codec (hooks/use-p2p-network.ts)

`handleChunkRequest` builds `[type(1)][shareId(16)][chunkIndex(4 LE)][chunkData]`;
`handleDataChannelMessage` reads it back.  A buffer is a `List Nat` of bytes. -/

/-- Model of `DataView.getUint8 / byte access`: byte at an index, 0 past the end
(out-of-range access in the source throws and is caught, yielding no result;
`byteAt` is only used under a length guard mirroring that). -/
def byteAt (data : List Nat) (i : Nat) : Nat := data.getD i 0

/-- Model of `view.setUint32(_, n, true)`: the four little-endian bytes of
`n` truncated to 32 bits. -/
def toLE4 (n : Nat) : List Nat :=
  [n % 256, n / 256 % 256, n / 65536 % 256, n / 16777216 % 256]

/-- Model of `view.getUint32(off, true)`: little-endian read of four bytes. -/
def getUint32LE (data : List Nat) (off : Nat) : Nat :=
  byteAt data off + 256 * byteAt data (off + 1) + 65536 * byteAt data (off + 2) +
    16777216 * byteAt data (off + 3)

/-- Model of `shareId.padEnd(16, "\0")` followed by UTF-8 encoding, for share
ids of at most 16 single-byte characters (actual ids are 16 hex characters). -/
def padShareId (shareId : List Nat) : List Nat :=
  shareId ++ List.replicate (16 - shareId.length) 0

/-- Encoder from `handleChunkRequest`:
`[1 byte messageType=1][16 bytes shareId][4 bytes chunkIndex LE][chunkData]`. -/
def encodeChunkMessage (shareId : List Nat) (chunkIndex : Nat) (chunkData : List Nat) :
    List Nat :=
  1 :: (padShareId shareId ++ toLE4 chunkIndex ++ chunkData)

/-- Result of decoding a binary chunk envelope. -/
structure DecodedChunk where
  messageType : Nat
  shareId : List Nat
  chunkIndex : Nat
  chunkData : List Nat
  deriving DecidableEq, Repr

/-- Decoder from `handleDataChannelMessage`: requires at least the 21 header
bytes (shorter buffers make `getUint32(17)` throw, which the source catches,
producing nothing) and message type 1; yields the 16 shareId bytes, the
little-endian chunk index, and the remaining payload. -/
def decodeChunkMessage (data : List Nat) : Option DecodedChunk :=
  if 21 ≤ data.length then
    if byteAt data 0 = 1 then
      some ⟨1, (data.drop 1).take 16, getUint32LE data 17, data.drop 21⟩
    else none
  else none

/-! ### SignalingServer registries (unnamed/part_002)

`this.peers : Map peerId -> { region, lastSeen, files }` and
`this.fileShares : Map shareId -> { peerId, metadata, created }`; the WebSocket
handle is outside the model. -/

/-- Entry of `this.peers` in the enhanced signaling server. -/
structure SPeer where
  region : String
  lastSeen : Nat
  files : List String
  deriving DecidableEq, Repr

/-- Entry of `this.fileShares`. -/
structure SShare where
  peerId : String
  metadata : String
  created : Nat
  deriving DecidableEq, Repr

/-- Registries of the enhanced signaling server. -/
structure ServerState where
  peers : List (String × SPeer)
  fileShares : List (String × SShare)
  deriving DecidableEq, Repr

/-- Reply sent by `handleRegister`. -/
inductive RegisterReply
  | missingFields (error : String)
  | registered (peerId : String) (peerCount : Nat)
  deriving DecidableEq, Repr

/-- Model of `handleRegister`: a missing (falsy, i.e. empty) peerId or region
is answered with an error; otherwise the peer is stored via `Map.set` —
overwriting any existing registration, with a fresh empty `files` set — and
answered with `registered{peerId, peerCount}`. -/
def handleRegister (s : ServerState) (peerId region : String) (now : Nat) :
    ServerState × RegisterReply :=
  if peerId = "" ∨ region = "" then (s, .missingFields "Missing peerId or region")
  else
    let peers' := mapSet peerId ⟨region, now, []⟩ s.peers
    ({ s with peers := peers' }, .registered peerId peers'.length)

/-- Model of the share-deletion loop in `handleDisconnection`: for each shareId
in the departing peer's `files`, the share is deleted when its `peerId` is the
departing peer. -/
def dropOwnedShares (peerId : String) (files : List String)
    (shares : List (String × SShare)) : List (String × SShare) :=
  files.foldl
    (fun acc shareId =>
      match mapLookup shareId acc with
      | some fs => if fs.peerId = peerId then mapDelete shareId acc else acc
      | none => acc)
    shares

/-- Model of `handleDisconnection`: removes the peer's owned file shares, then
removes the peer itself. -/
def handleDisconnection (s : ServerState) (peerId : String) : ServerState :=
  let shares' :=
    match mapLookup peerId s.peers with
    | some p => dropOwnedShares peerId p.files s.fileShares
    | none => s.fileShares
  { peers := mapDelete peerId s.peers, fileShares := shares' }

/-- Reply sent by `handleFindFile`. -/
inductive FindReply
  | fileNotFound (shareId : String) (reason : Option String)
  | fileFound (shareId metadata : String) (seeders : List String) (created : Nat)
  deriving DecidableEq, Repr

/-- Model of `handleFindFile`: unknown share answers `file-not-found`; a share
whose registered owner is gone is deleted and answered `file-not-found` with
reason "Sharing peer offline"; otherwise replies `file-found` with the metadata
and the peers whose `files` set contains the share. -/
def handleFindFile (s : ServerState) (shareId : String) : ServerState × FindReply :=
  match mapLookup shareId s.fileShares with
  | none => (s, .fileNotFound shareId none)
  | some fs =>
    match mapLookup fs.peerId s.peers with
    | none =>
        ({ s with fileShares := mapDelete shareId s.fileShares },
         .fileNotFound shareId (some "Sharing peer offline"))
    | some _ =>
        let seeders := (s.peers.filter fun e => decide (shareId ∈ e.2.files)).map (·.1)
        (s, .fileFound shareId fs.metadata seeders fs.created)

/-! ### Peer discovery (handleDiscoverPeers in unnamed/part_002)

The source builds candidate records `{id, region, sameRegion, lastSeen}`,
sorts them with the comparator "same region first, then most recent
`lastSeen`", slices the first 20 and keeps the ids.  `Array.prototype.sort`
is stable with a consistent comparator, so it is modelled as
`List.insertionSort` on the non-strict total preorder `candKeyLE` that the
comparator induces (stable sorted permutations by a total preorder are
unique, so any stable sort gives the same list). -/

/-- Candidate record built by `handleDiscoverPeers`. -/
structure Cand where
  id : String
  region : String
  sameRegion : Bool
  lastSeen : Nat
  deriving DecidableEq, Repr

/-- Numeric region priority: same-region candidates rank higher. -/
def regionRank (c : Cand) : Nat := if c.sameRegion then 1 else 0

/-- Ordering induced by the discovery comparator: `a` may come before `b` iff
the comparator does not strictly prefer `b`. -/
def candKeyLE (a b : Cand) : Prop :=
  regionRank b < regionRank a ∨ (regionRank b = regionRank a ∧ b.lastSeen ≤ a.lastSeen)

instance : DecidableRel candKeyLE := fun a b => by
  unfold candKeyLE
  infer_instance

instance : IsTotal Cand candKeyLE := ⟨by
  intro a b
  unfold candKeyLE
  omega⟩

instance : IsTrans Cand candKeyLE := ⟨by
  intro a b c
  unfold candKeyLE
  omega⟩

/-- Candidate list of `handleDiscoverPeers`: every stored peer except the
requester, tagged with region affinity and recency. -/
def discoverCandidates (s : ServerState) (peerId : String) (peer : SPeer) : List Cand :=
  (s.peers.filter fun e => decide (e.1 ≠ peerId)).map
    fun e => ⟨e.1, e.2.region, e.2.region == peer.region, e.2.lastSeen⟩

/-- Model of `handleDiscoverPeers`: `none` models the "Peer not registered"
error reply; otherwise the candidates are stably sorted by the comparator,
cut to 20 and projected to ids. -/
def handleDiscoverPeers (s : ServerState) (peerId : String) : Option (List String) :=
  match mapLookup peerId s.peers with
  | none => none
  | some peer =>
      some ((((discoverCandidates s peerId peer).insertionSort candKeyLE).take 20).map (·.id))

/-- State for the discovery witness: a requester and two other peers. -/
def discState : ServerState :=
  { peers := [("r", ⟨"us", 100, []⟩), ("p2", ⟨"us", 50, []⟩), ("p1", ⟨"us", 50, []⟩)],
    fileShares := [] }

/-- Registry with one live peer seeding share "S", for the C8 theorems. -/
def dupState : ServerState :=
  { peers := [("p", ⟨"us", 10, ["S"]⟩)], fileShares := [("S", ⟨"p", "m", 5⟩)] }

/-- Registry where "p1" is the owner and sole seeder of share "S". -/
def soleSeederState : ServerState :=
  { peers := [("p1", ⟨"us", 0, ["S"]⟩)], fileShares := [("S", ⟨"p1", "m", 0⟩)] }

/-- Registry where "p1" owns share "S" but "p2" also seeds it. -/
def twoSeederState : ServerState :=
  { peers := [("p1", ⟨"us", 0, ["S"]⟩), ("p2", ⟨"us", 0, ["S"]⟩)],
    fileShares := [("S", ⟨"p1", "m", 0⟩)] }

/-! ### scripts/signaling-server.js: relay and file-request resolution

This server keeps `peers : Map peerId -> {ws, id, ip, connectedAt, rooms}` —
note there is no registry of which peer holds which share.  Outbound JSON
objects are modelled as ordered field lists `List (String × String)`. -/

/-- Entry of the `peers` map in scripts/signaling-server.js. -/
structure JPeer where
  id : String
  ip : String
  connectedAt : Nat
  rooms : List String
  deriving DecidableEq, Repr

/-- Model of `findPeerWithFile(shareId)`: the source iterates the `peers` map
and returns the first peer unconditionally — its own comments call it a
placeholder for "actual file registry logic". -/
def findPeerWithFile (peers : List (String × JPeer)) (shareId : String) : Option JPeer :=
  match peers with
  | [] => none
  | e :: _ => some e.2

/-- An inbound signaling message to be relayed: its ordered JSON fields.  The
target is read from the message's own `targetPeerId` field.  (The source
spreads `{...message, fromPeerId}`; the model assumes the inbound message
carries no `fromPeerId` field of its own, as the clients never send one.) -/
structure RelayMsg where
  fields : List (String × String)
  deriving DecidableEq, Repr

/-- Target peer id read from the message fields. -/
def RelayMsg.targetPeerId (m : RelayMsg) : String :=
  (mapLookup "targetPeerId" m.fields).getD ""

/-- Model of `relayMessage(fromPeerId, message)`: the result is the list of
(recipient, JSON fields) sends it performs.  A live target receives the
message fields verbatim plus an appended `fromPeerId`; otherwise the sender
(if live) receives the error object, and nothing else happens — no retry. -/
def relayMessage (peers : List (String × JPeer)) (fromPeerId : String) (msg : RelayMsg) :
    List (String × List (String × String)) :=
  match mapLookup msg.targetPeerId peers with
  | some _ => [(msg.targetPeerId, msg.fields ++ [("fromPeerId", fromPeerId)])]
  | none =>
    match mapLookup fromPeerId peers with
    | some _ =>
        [(fromPeerId,
          [("type", "error"), ("message", "Target peer not found"),
           ("targetPeerId", msg.targetPeerId)])]
    | none => []

/-- Single registered peer "q1" whose state mentions no share whatsoever. -/
def onePeerState : List (String × JPeer) := [("q1", ⟨"q1", "10.0.0.1", 0, []⟩)]

/-! ### Transfer manager (hooks/use-transfer-manager.ts)

`transfersRef.current : Map transferId -> Transfer` plus the completed-history
list.  `setTimeout` retry chains are modelled as explicit scheduled tasks
returned by the handler; progress arithmetic is modelled exactly over `ℚ`. -/

/-- Status of a single chunk. -/
inductive ChunkStatus
  | pending
  | downloading
  | completed
  | failed
  deriving DecidableEq, Repr

/-- Status of a transfer session. -/
inductive TransferStatus
  | pending
  | active
  | paused
  | completed
  | failed
  deriving DecidableEq, Repr

/-- Per-chunk record of a transfer. -/
structure TransferChunk where
  index : Nat
  size : Nat
  status : ChunkStatus
  peerId : Option String
  attempts : Nat
  deriving DecidableEq, Repr

/-- A transfer session. -/
structure Transfer where
  id : String
  fileName : String
  fileSize : Nat
  direction : String
  status : TransferStatus
  progress : ℚ
  speed : ℚ
  peers : Nat
  startTime : Nat
  chunks : List TransferChunk
  deriving DecidableEq, Repr

/-- State held by the transfer manager: the active-transfer map and the
completed/failed history (most recent first, capped at 50). -/
structure ManagerState where
  transfers : List (String × Transfer)
  completedTransfers : List Transfer
  deriving DecidableEq, Repr

/-- A `setTimeout` scheduled by `updateChunkStatus`: re-mark the chunk
`pending` after the given delay in milliseconds. -/
inductive ScheduledTask
  | retryChunk (transferId : String) (chunkIndex : Nat) (delayMs : Nat)
  deriving DecidableEq, Repr

/-- Model of `createTransfer`: `totalChunks` chunk records where every chunk
gets `floor(fileSize / totalChunks)` bytes except the last, which gets the
remainder; all chunks start `pending` with zero attempts. -/
def createTransfer (transferId fileName : String) (fileSize : Nat) (direction : String)
    (totalChunks : Nat) (now : Nat) : Transfer :=
  { id := transferId
    fileName := fileName
    fileSize := fileSize
    direction := direction
    status := .pending
    progress := 0
    speed := 0
    peers := 0
    startTime := now
    chunks := (List.range totalChunks).map fun index =>
      { index := index
        size :=
          if index = totalChunks - 1 then fileSize - index * (fileSize / totalChunks)
          else fileSize / totalChunks
        status := .pending
        peerId := none
        attempts := 0 } }

/-- Count of completed chunks, as in
`transfer.chunks.filter((c) => c.status === "completed").length`. -/
def completedCount (chunks : List TransferChunk) : Nat :=
  (chunks.filter fun c => decide (c.status = ChunkStatus.completed)).length

/-- Model of `completeTransfer`: marks the transfer completed with progress
100, moves it to the history (keeping 50 entries) and drops it from the
active map. -/
def completeTransfer (s : ManagerState) (transferId : String) : ManagerState :=
  match mapLookup transferId s.transfers with
  | none => s
  | some t =>
      { transfers := mapDelete transferId s.transfers
        completedTransfers :=
          { t with status := .completed, progress := 100 } :: s.completedTransfers.take 49 }

/-- Model of `cancelTransfer`: marks the transfer failed, moves it to the
history and drops it from the active map. -/
def cancelTransfer (s : ManagerState) (transferId : String) : ManagerState :=
  match mapLookup transferId s.transfers with
  | none => s
  | some t =>
      { transfers := mapDelete transferId s.transfers
        completedTransfers :=
          { t with status := .failed } :: s.completedTransfers.take 49 }

/-- Model of `updateChunkStatus`: unknown transfer ids and chunk indices are
no-ops; a `completed` chunk recomputes progress and may complete the
transfer; a `failed` chunk increments `attempts` and, while below 3,
schedules a retry after `2000 * attempts` ms. -/
def updateChunkStatus (s : ManagerState) (transferId : String) (chunkIndex : Nat)
    (status : ChunkStatus) (peerId : Option String) :
    ManagerState × List ScheduledTask :=
  match mapLookup transferId s.transfers with
  | none => (s, [])
  | some t =>
    match t.chunks.get? chunkIndex with
    | none => (s, [])
    | some c =>
      let c1 : TransferChunk :=
        { c with
          status := status
          peerId := match peerId with | some p => some p | none => c.peerId }
      match status with
      | .completed =>
          let chunks' := t.chunks.set chunkIndex c1
          let done := completedCount chunks'
          let t' := { t with
            chunks := chunks'
            progress := (done : ℚ) / (chunks'.length : ℚ) * 100 }
          let s' := { s with transfers := mapSet transferId t' s.transfers }
          if done = chunks'.length then (completeTransfer s' transferId, [])
          else (s', [])
      | .failed =>
          let c2 := { c1 with attempts := c1.attempts + 1 }
          let chunks' := t.chunks.set chunkIndex c2
          let t' := { t with chunks := chunks' }
          let s' := { s with transfers := mapSet transferId t' s.transfers }
          if c2.attempts < 3 then
            (s', [.retryChunk transferId chunkIndex (2000 * c2.attempts)])
          else (s', [])
      | _ =>
          let chunks' := t.chunks.set chunkIndex c1
          let t' := { t with chunks := chunks' }
          ({ s with transfers := mapSet transferId t' s.transfers }, [])

/-- One chunk-status callback. -/
structure ChunkEvent where
  transferId : String
  chunkIndex : Nat
  status : ChunkStatus
  peerId : Option String
  deriving DecidableEq, Repr

/-- State reached after a chunk-status callback (scheduled tasks dropped). -/
def applyChunkEvent (s : ManagerState) (e : ChunkEvent) : ManagerState :=
  (updateChunkStatus s e.transferId e.chunkIndex e.status e.peerId).1

/-- State reached after a sequence of chunk-status callbacks. -/
def applyChunkEvents (s : ManagerState) (events : List ChunkEvent) : ManagerState :=
  events.foldl applyChunkEvent s

/-- Progress of an active transfer, if present. -/
def progressOf (s : ManagerState) (transferId : String) : Option ℚ :=
  (mapLookup transferId s.transfers).map (·.progress)

/-- Status of an active transfer, if present. -/
def statusOf (s : ManagerState) (transferId : String) : Option TransferStatus :=
  (mapLookup transferId s.transfers).map (·.status)

/-- Status of one chunk of an active transfer, if present. -/
def chunkStatusAt (s : ManagerState) (transferId : String) (i : Nat) :
    Option ChunkStatus :=
  (mapLookup transferId s.transfers).bind fun t => (t.chunks.get? i).map (·.status)

/-- Attempt counter of one chunk of an active transfer, if present. -/
def chunkAttemptsAt (s : ManagerState) (transferId : String) (i : Nat) : Option Nat :=
  (mapLookup transferId s.transfers).bind fun t => (t.chunks.get? i).map (·.attempts)

/-- Chunk record produced by the `failed` branch of `updateChunkStatus`:
status `failed`, optional peer id taken over, attempts incremented. -/
def failedChunkUpdate (c : TransferChunk) (pid : Option String) : TransferChunk :=
  { c with status := .failed
           peerId := (match pid with | some p => some p | none => c.peerId)
           attempts := c.attempts + 1 }

/-- Transfer "t1" whose chunk 0 is about to fail for the first time. -/
def retryState : ManagerState :=
  { transfers := [("t1",
      { id := "t1", fileName := "f", fileSize := 4, direction := "download",
        status := .active, progress := 0, speed := 0, peers := 0, startTime := 0,
        chunks := [⟨0, 2, .downloading, none, 0⟩, ⟨1, 2, .pending, none, 0⟩] })],
    completedTransfers := [] }

/-- Transfer "t1" whose chunk 0 has already failed twice. -/
def exhaustState : ManagerState :=
  { transfers := [("t1",
      { id := "t1", fileName := "f", fileSize := 4, direction := "download",
        status := .active, progress := 0, speed := 0, peers := 0, startTime := 0,
        chunks := [⟨0, 2, .downloading, none, 2⟩, ⟨1, 2, .pending, none, 0⟩] })],
    completedTransfers := [] }

/-- Chunk record produced by the non-failure branches of `updateChunkStatus`:
new status, optional peer id taken over. -/
def chunkWithStatus (st : ChunkStatus) (c : TransferChunk) (pid : Option String) :
    TransferChunk :=
  { c with status := st
           peerId := (match pid with | some p => some p | none => c.peerId) }

/-- Transfer record produced by a chunk acknowledgement: chunk written back
and progress recomputed as `completedChunks / totalChunks * 100`. -/
def ackTransfer (t : Transfer) (i : Nat) (c : TransferChunk) (pid : Option String) :
    Transfer :=
  { t with
    chunks := t.chunks.set i (chunkWithStatus .completed c pid)
    progress := (completedCount (t.chunks.set i (chunkWithStatus .completed c pid)) : ℚ) /
      ((t.chunks.set i (chunkWithStatus .completed c pid)).length : ℚ) * 100 }

/-- Every active transfer's stored progress equals
`completedChunks / totalChunks * 100`. -/
def ProgressInvState (s : ManagerState) : Prop :=
  ∀ tid t, mapLookup tid s.transfers = some t →
    t.progress = (completedCount t.chunks : ℚ) / (t.chunks.length : ℚ) * 100

/-- A chunk callback that does not demote an already-completed chunk: it is an
acknowledgement, or it targets a chunk that is not currently completed. -/
def okEvent (s : ManagerState) (e : ChunkEvent) : Prop :=
  e.status = ChunkStatus.completed ∨
    ∀ st, chunkStatusAt s e.transferId e.chunkIndex = some st →
      st ≠ ChunkStatus.completed

/-- A run of chunk callbacks none of which demotes a completed chunk at the
moment it is applied. -/
def OkEvents : ManagerState → List ChunkEvent → Prop
  | _, [] => True
  | s, e :: es => okEvent s e ∧ OkEvents (applyChunkEvent s e) es

/-- Chunk list of `retryState`'s transfer after chunk 0 is acknowledged. -/
def ackedChunks : List TransferChunk :=
  [⟨0, 2, .completed, none, 0⟩, ⟨1, 2, .pending, none, 0⟩]

/-- Transfer state reached after acknowledging chunk 0 of `retryState`'s
two-chunk transfer: progress recomputed as 1 completed of 2 chunks. -/
def ackedTransfer : Transfer :=
  { id := "t1", fileName := "f", fileSize := 4, direction := "download",
    status := .active,
    progress := (completedCount ackedChunks : ℚ) / (ackedChunks.length : ℚ) * 100,
    speed := 0, peers := 0, startTime := 0, chunks := ackedChunks }

/-- Three-chunk transfer "t" with no chunk completed yet. -/
def monoState : ManagerState :=
  { transfers := [("t",
      { id := "t", fileName := "g", fileSize := 3, direction := "download",
        status := .active, progress := 0, speed := 0, peers := 0, startTime := 0,
        chunks := [⟨0, 1, .downloading, none, 0⟩, ⟨1, 1, .downloading, none, 0⟩,
          ⟨2, 1, .downloading, none, 0⟩] })],
    completedTransfers := [] }

/-- Chunk list of `monoState`'s transfer after chunks 0 and 1 are acked. -/
def twoAckedChunks : List TransferChunk :=
  [⟨0, 1, .completed, none, 0⟩, ⟨1, 1, .completed, none, 0⟩,
   ⟨2, 1, .downloading, none, 0⟩]

/-- Chunk list after stale failure callbacks demote chunks 0 and 1 and chunk 0
is re-acknowledged: only one chunk counts as completed again. -/
def staleChunks : List TransferChunk :=
  [⟨0, 1, .completed, none, 1⟩, ⟨1, 1, .failed, none, 1⟩,
   ⟨2, 1, .downloading, none, 0⟩]

/-! ### Theorems -/

theorem mapLookup_mapDelete_self {α : Type} (k : String) (m : List (String × α)) :
    mapLookup k (mapDelete k m) = none := by
  induction m with
  | nil => rfl
  | cons e rest ih =>
    by_cases h : e.1 = k <;> simp [mapDelete, mapLookup, h, ih]

theorem mapLookup_mapDelete_ne {α : Type} {k k' : String} (m : List (String × α))
    (h : k' ≠ k) : mapLookup k' (mapDelete k m) = mapLookup k' m := by
  induction m with
  | nil => rfl
  | cons e rest ih =>
    by_cases he : e.1 = k
    · have hk : k ≠ k' := fun hc => h hc.symm
      simp [mapDelete, mapLookup, he, hk, ih]
    · by_cases he' : e.1 = k' <;> simp [mapDelete, mapLookup, he, he', ih, h]

theorem mapLookup_mapSet_self {α : Type} (k : String) (v : α) (m : List (String × α)) :
    mapLookup k (mapSet k v m) = some v := by
  induction m with
  | nil => simp [mapSet, mapLookup]
  | cons e rest ih =>
    by_cases h : e.1 = k <;> simp [mapSet, mapLookup, h, ih]

theorem byteAt_drop (data : List Nat) (n i : Nat) :
    byteAt (data.drop n) i = byteAt data (n + i) := by
  simp [byteAt, List.getD, List.getElem?_drop]

theorem byteAt_cons_zero (a : Nat) (l : List Nat) : byteAt (a :: l) 0 = a := rfl

theorem byteAt_cons_succ (a : Nat) (l : List Nat) (i : Nat) :
    byteAt (a :: l) (i + 1) = byteAt l i := rfl

theorem byteAt_lt (data : List Nat) (i : Nat) (h : i < data.length)
    (hb : ∀ b ∈ data, b < 256) : byteAt data i < 256 := by
  have : byteAt data i = data[i] := List.getD_eq_getElem data 0 h
  rw [this]
  exact hb _ (List.getElem_mem h)

theorem take4_byteAt (l : List Nat) (h : 4 ≤ l.length) :
    l.take 4 = [byteAt l 0, byteAt l 1, byteAt l 2, byteAt l 3] := by
  match l, h with
  | a :: b :: c :: d :: rest, _ => simp [byteAt]

theorem cons_byteAt_drop (data : List Nat) (h : 1 ≤ data.length) :
    data = byteAt data 0 :: data.drop 1 := by
  match data, h with
  | a :: rest, _ => rfl

theorem padShareId_of_length (shareId : List Nat) (h : shareId.length = 16) :
    padShareId shareId = shareId := by
  simp [padShareId, h]

theorem toLE4_getUint32LE (a b c d : Nat) (ha : a < 256) (hb : b < 256) (hc : c < 256)
    (hd : d < 256) : toLE4 (a + 256 * b + 65536 * c + 16777216 * d) = [a, b, c, d] := by
  simp only [toLE4, List.cons.injEq, and_true]
  omega

theorem getUint32LE_toLE4 (n : Nat) (h : n < 4294967296) (tail : List Nat) :
    getUint32LE (toLE4 n ++ tail) 0 = n := by
  simp only [toLE4, getUint32LE, List.cons_append, List.nil_append, byteAt_cons_zero,
    byteAt_cons_succ]
  omega

theorem getUint32LE_drop (data : List Nat) (n : Nat) :
    getUint32LE (data.drop n) 0 = getUint32LE data n := by
  simp [getUint32LE, byteAt_drop]

/-- C9: encoding a binary chunk envelope as
`[1 byte messageType=1][16 bytes shareId][4 bytes chunkIndex LE][payload]` and
decoding it recovers message type 1, the original shareId, chunkIndex and
payload; conversely decoding a well-formed envelope and re-encoding the parts
reproduces the original bytes, so encode and decode are mutually inverse on
well-formed envelopes. -/
theorem chunkCodec_roundTrip :
    (∀ (shareId : List Nat) (chunkIndex : Nat) (chunkData : List Nat),
        shareId.length = 16 → chunkIndex < 4294967296 →
        decodeChunkMessage (encodeChunkMessage shareId chunkIndex chunkData) =
          some ⟨1, shareId, chunkIndex, chunkData⟩) ∧
    (∀ (data : List Nat) (d : DecodedChunk), (∀ b ∈ data, b < 256) →
        decodeChunkMessage data = some d →
        encodeChunkMessage d.shareId d.chunkIndex d.chunkData = data) := by
  constructor
  · intro sid n p h16 h32
    have hdata : encodeChunkMessage sid n p = 1 :: (sid ++ (toLE4 n ++ p)) := by
      rw [encodeChunkMessage, padShareId_of_length sid h16, List.append_assoc]
    have hdrop1 : (encodeChunkMessage sid n p).drop 1 = sid ++ (toLE4 n ++ p) := by
      rw [hdata]; rfl
    have hdrop17 : (encodeChunkMessage sid n p).drop 17 = toLE4 n ++ p := by
      rw [hdata, List.drop_succ_cons, ← h16, List.drop_left]
    have hlen : 21 ≤ (encodeChunkMessage sid n p).length := by
      rw [hdata]
      simp only [List.length_cons, List.length_append, h16, toLE4]
      omega
    have htype : byteAt (encodeChunkMessage sid n p) 0 = 1 := by rw [hdata]; rfl
    rw [decodeChunkMessage, if_pos hlen, if_pos htype]
    have hsid : ((encodeChunkMessage sid n p).drop 1).take 16 = sid := by
      rw [hdrop1, ← h16, List.take_left]
    have hidx : getUint32LE (encodeChunkMessage sid n p) 17 = n := by
      rw [← getUint32LE_drop, hdrop17, getUint32LE_toLE4 n h32]
    have hpay : (encodeChunkMessage sid n p).drop 21 = p := by
      have h4 : (encodeChunkMessage sid n p).drop 21 =
          ((encodeChunkMessage sid n p).drop 17).drop 4 := by
        rw [List.drop_drop]
      rw [h4, hdrop17]
      have : (toLE4 n).length = 4 := rfl
      rw [← this, List.drop_left]
    rw [hsid, hidx, hpay]
  · intro data d hb hdec
    rw [decodeChunkMessage] at hdec
    split_ifs at hdec with h21 htype
    have hd : d = ⟨1, (data.drop 1).take 16, getUint32LE data 17, data.drop 21⟩ :=
      (Option.some.injEq _ _).mp hdec.symm
    subst hd
    have hlen16 : ((data.drop 1).take 16).length = 16 := by
      simp only [List.length_take, List.length_drop]
      omega
    have hb17 : byteAt data 17 < 256 := byteAt_lt data 17 (by omega) hb
    have hb18 : byteAt data 18 < 256 := byteAt_lt data 18 (by omega) hb
    have hb19 : byteAt data 19 < 256 := byteAt_lt data 19 (by omega) hb
    have hb20 : byteAt data 20 < 256 := byteAt_lt data 20 (by omega) hb
    have hle4 : toLE4 (getUint32LE data 17) =
        [byteAt data 17, byteAt data 18, byteAt data 19, byteAt data 20] := by
      rw [getUint32LE]
      exact toLE4_getUint32LE _ _ _ _ hb17 hb18 hb19 hb20
    have htake4 : (data.drop 17).take 4 =
        [byteAt data 17, byteAt data 18, byteAt data 19, byteAt data 20] := by
      rw [take4_byteAt (data.drop 17) (by simp; omega)]
      simp only [byteAt_drop]
    have hsplit17 : (data.drop 17).take 4 ++ data.drop 21 = data.drop 17 := by
      have h4 : (data.drop 17).drop 4 = data.drop 21 := by rw [List.drop_drop]
      rw [← h4, List.take_append_drop]
    have hsplit1 : (data.drop 1).take 16 ++ data.drop 17 = data.drop 1 := by
      have h16 : (data.drop 1).drop 16 = data.drop 17 := by rw [List.drop_drop]
      rw [← h16, List.take_append_drop]
    rw [encodeChunkMessage, padShareId, hlen16]
    simp only [Nat.sub_self, List.replicate_zero, List.append_nil, hle4, ← htake4,
      List.append_assoc, hsplit17, hsplit1]
    have hfinal : byteAt data 0 :: List.drop 1 data = data :=
      (cons_byteAt_drop data (by omega)).symm
    rw [htype] at hfinal
    exact hfinal

/-- Witness: round trip on a concrete envelope (16-byte shareId, index 7,
two payload bytes). -/
theorem chunkCodec_roundTrip_witness :
    decodeChunkMessage (encodeChunkMessage (List.replicate 16 97) 7 [9, 8]) =
      some ⟨1, List.replicate 16 97, 7, [9, 8]⟩ :=
  chunkCodec_roundTrip.1 (List.replicate 16 97) 7 [9, 8] (by decide) (by norm_num)

/-- C3 (amended): for a registered requester, discovery returns all stored
peers except the requester, stably sorted same-region-first then most-recent
`lastSeen`, cut to 20; ties keep the registry's insertion (iteration) order —
the stability over `candKeyLE` — rather than being broken by peer id. -/
theorem discoverPeers_ranking (s : ServerState) (peerId : String) (peer : SPeer)
    (hreq : mapLookup peerId s.peers = some peer) :
    handleDiscoverPeers s peerId =
      some ((((discoverCandidates s peerId peer).insertionSort candKeyLE).take 20).map (·.id)) ∧
    List.Sorted candKeyLE ((discoverCandidates s peerId peer).insertionSort candKeyLE) ∧
    List.Perm ((discoverCandidates s peerId peer).insertionSort candKeyLE)
      (discoverCandidates s peerId peer) ∧
    (∀ a b : Cand, candKeyLE a b → List.Sublist [a, b] (discoverCandidates s peerId peer) →
      List.Sublist [a, b] ((discoverCandidates s peerId peer).insertionSort candKeyLE)) ∧
    (∀ c ∈ discoverCandidates s peerId peer, c.id ≠ peerId) ∧
    (∀ ids, handleDiscoverPeers s peerId = some ids → ids.length ≤ 20) := by
  refine ⟨?_, List.sorted_insertionSort candKeyLE _, List.perm_insertionSort candKeyLE _,
    fun a b hab hsub => List.pair_sublist_insertionSort hab hsub, ?_, ?_⟩
  · rw [handleDiscoverPeers, hreq]
  · intro c hc
    rw [discoverCandidates] at hc
    obtain ⟨e, he, rfl⟩ := List.mem_map.mp hc
    have := (List.mem_filter.mp he).2
    simpa using this
  · intro ids hids
    rw [handleDiscoverPeers, hreq] at hids
    injection hids with h
    rw [← h, List.length_map]
    exact (List.length_take_le _ _)

/-- Witness: the ranking specification applied to a concrete registry. -/
theorem discoverPeers_ranking_witness :
    handleDiscoverPeers discState "r" =
      some ((((discoverCandidates discState "r" ⟨"us", 100, []⟩).insertionSort
        candKeyLE).take 20).map (·.id)) :=
  (discoverPeers_ranking discState "r" ⟨"us", 100, []⟩ rfl).1

/-- Counterexample to C3 as stated: `p1` and `p2` share region and `lastSeen`
(equal sort keys), yet discovery lists `p2` before `p1` — ties follow the
registry's insertion order, not the peer-id order required by the claim. -/
theorem discoverPeers_tiebreak_counterexample :
    handleDiscoverPeers discState "r" = some ["p2", "p1"] ∧ ("p1" : String) < "p2" := by
  constructor
  · decide
  · rw [String.lt_iff_toList_lt]
    decide

theorem mapSet_length_of_lookup_some {α : Type} {k : String} {v v' : α}
    {m : List (String × α)} (h : mapLookup k m = some v') :
    (mapSet k v m).length = m.length := by
  induction m with
  | nil => exact absurd h (by simp [mapLookup])
  | cons e rest ih =>
    by_cases he : e.1 = k
    · simp [mapSet, he]
    · rw [mapLookup, if_neg he] at h
      simp [mapSet, he, ih h]

/-- C8 (amended): re-registering a live peer id is not rejected: the server
replies `registered` (the peer count unchanged, since the entry is replaced
in place) and overwrites the registration with a fresh one whose `files` set
is empty. -/
theorem handleRegister_overwrites (s : ServerState) (peerId region : String) (now : Nat)
    (old : SPeer) (hp : peerId ≠ "") (hr : region ≠ "")
    (hold : mapLookup peerId s.peers = some old) :
    (handleRegister s peerId region now).2 = .registered peerId s.peers.length ∧
    mapLookup peerId (handleRegister s peerId region now).1.peers =
      some ⟨region, now, []⟩ := by
  have hcond : ¬(peerId = "" ∨ region = "") := by
    rintro (h | h)
    · exact hp h
    · exact hr h
  rw [handleRegister, if_neg hcond]
  dsimp only
  exact ⟨by rw [mapSet_length_of_lookup_some hold], mapLookup_mapSet_self _ _ _⟩

/-- Witness: re-registering the live peer "p" replies `registered` and
replaces its entry. -/
theorem handleRegister_overwrites_witness :
    (handleRegister dupState "p" "eu" 99).2 = .registered "p" 1 ∧
    mapLookup "p" (handleRegister dupState "p" "eu" 99).1.peers =
      some ⟨"eu", 99, []⟩ :=
  handleRegister_overwrites dupState "p" "eu" 99 ⟨"us", 10, ["S"]⟩
    (by decide) (by decide) rfl

/-- Counterexample to C8 as stated: re-registration of the live id "p" is
answered `registered` (no DuplicateError) and the existing registration is
replaced — its `files` set is wiped — rather than left unchanged. -/
theorem handleRegister_duplicate_counterexample :
    (handleRegister dupState "p" "eu" 99).2 = .registered "p" 1 ∧
    mapLookup "p" (handleRegister dupState "p" "eu" 99).1.peers =
      some ⟨"eu", 99, []⟩ ∧
    (⟨"eu", 99, []⟩ : SPeer) ≠ ⟨"us", 10, ["S"]⟩ := by
  refine ⟨by decide, by decide, by decide⟩

theorem mapLookup_mapDelete_none {α : Type} (S f : String) (m : List (String × α))
    (h : mapLookup S m = none) : mapLookup S (mapDelete f m) = none := by
  by_cases hf : S = f
  · subst hf
    exact mapLookup_mapDelete_self _ _
  · rw [mapLookup_mapDelete_ne m hf]
    exact h

theorem dropOwnedShares_lookup_none (p S : String) (files : List String)
    (shares : List (String × SShare)) (h : mapLookup S shares = none) :
    mapLookup S (dropOwnedShares p files shares) = none := by
  induction files generalizing shares with
  | nil => exact h
  | cons f rest ih =>
    rw [dropOwnedShares, List.foldl_cons]
    apply ih
    rcases hl : mapLookup f shares with _ | fs
    · simpa [hl] using h
    · by_cases hown : fs.peerId = p
      · simpa [hl, hown] using mapLookup_mapDelete_none S f shares h
      · simpa [hl, hown] using h

theorem dropOwnedShares_deletes (p S : String) (files : List String)
    (shares : List (String × SShare)) (hmem : S ∈ files)
    (hS : ∀ fs, mapLookup S shares = some fs → fs.peerId = p) :
    mapLookup S (dropOwnedShares p files shares) = none := by
  induction files generalizing shares with
  | nil => exact absurd hmem (List.not_mem_nil S)
  | cons f rest ih =>
    rw [dropOwnedShares, List.foldl_cons]
    by_cases hf : f = S
    · subst hf
      rcases hl : mapLookup f shares with _ | fs
      · exact dropOwnedShares_lookup_none p f rest _ (by simp [hl])
      · have hown : fs.peerId = p := hS fs hl
        refine dropOwnedShares_lookup_none p f rest _ ?_
        simpa [hl, hown] using mapLookup_mapDelete_self f shares
    · have hmem' : S ∈ rest := by
        rcases List.mem_cons.mp hmem with h | h
        · exact absurd h.symm hf
        · exact h
      have hne : S ≠ f := fun hc => hf hc.symm
      rcases hl : mapLookup f shares with _ | fs
      · exact ih _ hmem' (by simpa [hl] using hS)
      · by_cases hown : fs.peerId = p
        · refine ih _ hmem' ?_
          intro fs' hfs'
          dsimp only at hfs'
          rw [if_pos hown, mapLookup_mapDelete_ne shares hne] at hfs'
          exact hS fs' hfs'
        · exact ih _ hmem' (by simpa [hl, hown] using hS)

/-- C2 (amended): when the registered owner of a share disconnects, the share
is destroyed and an immediate `find` answers `file-not-found` — regardless of
whether other seeders remain; the sole-seeder case of the claim is the
special case with no other seeder. -/
theorem find_after_owner_disconnect (s : ServerState) (p S : String) (fs : SShare)
    (pd : SPeer) (hshare : mapLookup S s.fileShares = some fs) (howner : fs.peerId = p)
    (hpeer : mapLookup p s.peers = some pd) (hfiles : S ∈ pd.files) :
    (handleFindFile (handleDisconnection s p) S).2 = .fileNotFound S none := by
  have hnone : mapLookup S (handleDisconnection s p).fileShares = none := by
    rw [handleDisconnection]
    dsimp only
    rw [hpeer]
    refine dropOwnedShares_deletes p S pd.files s.fileShares hfiles ?_
    intro fs' hfs'
    rw [hshare] at hfs'
    injection hfs' with h
    rw [← h]
    exact howner
  rw [handleFindFile, hnone]

/-- Witness: after the sole seeder "p1" disconnects, `find("S")` answers
`file-not-found`. -/
theorem find_after_owner_disconnect_witness :
    (handleFindFile (handleDisconnection soleSeederState "p1") "S").2 =
      .fileNotFound "S" none :=
  find_after_owner_disconnect soleSeederState "p1" "S" ⟨"p1", "m", 0⟩ ⟨"us", 0, ["S"]⟩
    rfl rfl rfl (by decide)

/-- Counterexample to C2 as stated: the owner "p1" disconnects while the
seeder "p2" remains registered and holds "S", yet the share is destroyed and
`find("S")` answers `file-not-found` — the "unless another seeder remains"
clause does not hold in the code. -/
theorem owner_disconnect_counterexample :
    mapLookup "p2" (handleDisconnection twoSeederState "p1").peers =
      some ⟨"us", 0, ["S"]⟩ ∧
    (handleFindFile (handleDisconnection twoSeederState "p1") "S").2 =
      .fileNotFound "S" none := by
  refine ⟨by decide, by decide⟩

/-- C1: `findPeerWithFile` resolves a file request with the first connected
peer no matter which share is asked for — here peer "q1", whose record holds
no trace of share "abc123" (the data model tracks no shares at all), is
returned for "abc123" and for any other share id alike. -/
theorem findPeerWithFile_ignores_share :
    findPeerWithFile onePeerState "abc123" = some ⟨"q1", "10.0.0.1", 0, []⟩ ∧
    ∀ shareId : String, findPeerWithFile onePeerState shareId =
      findPeerWithFile onePeerState "abc123" := by
  exact ⟨rfl, fun _ => rfl⟩

/-- C4 (amended): with a live target, the relay forwards the message fields
verbatim (appending only `fromPeerId`) to exactly the target; with a dead
target it delivers nothing to the target and sends the sender (if live) the
error object `{type: "error", message: "Target peer not found", targetPeerId}`;
in every case at most one send happens — no retries. -/
theorem relayMessage_spec (peers : List (String × JPeer)) (fromPeerId : String)
    (msg : RelayMsg) :
    (∀ tp, mapLookup msg.targetPeerId peers = some tp →
      relayMessage peers fromPeerId msg =
        [(msg.targetPeerId, msg.fields ++ [("fromPeerId", fromPeerId)])]) ∧
    (mapLookup msg.targetPeerId peers = none →
      (∀ out ∈ relayMessage peers fromPeerId msg, out.1 = fromPeerId ∧
        out.2 = [("type", "error"), ("message", "Target peer not found"),
                 ("targetPeerId", msg.targetPeerId)]) ∧
      (∀ sp, mapLookup fromPeerId peers = some sp →
        relayMessage peers fromPeerId msg =
          [(fromPeerId,
            [("type", "error"), ("message", "Target peer not found"),
             ("targetPeerId", msg.targetPeerId)])])) ∧
    (relayMessage peers fromPeerId msg).length ≤ 1 := by
  refine ⟨?_, ?_, ?_⟩
  · intro tp htp
    rw [relayMessage, htp]
  · intro hdead
    constructor
    · intro out hout
      rw [relayMessage, hdead] at hout
      rcases hsp : mapLookup fromPeerId peers with _ | sp
      · rw [hsp] at hout
        exact absurd hout (List.not_mem_nil out)
      · rw [hsp] at hout
        rcases List.mem_singleton.mp hout with rfl
        exact ⟨rfl, rfl⟩
    · intro sp hsp
      rw [relayMessage, hdead, hsp]
  · rw [relayMessage]
    rcases mapLookup msg.targetPeerId peers with _ | _
    · rcases mapLookup fromPeerId peers with _ | _ <;> simp
    · simp

/-- Witness: relaying an offer between the live peer "q1" (sender) and the
absent target "zz" produces exactly the error send. -/
theorem relayMessage_spec_witness :
    relayMessage onePeerState "q1" ⟨[("type", "offer"), ("targetPeerId", "zz"),
      ("sdp", "x")]⟩ =
      [("q1",
        [("type", "error"), ("message", "Target peer not found"),
         ("targetPeerId", "zz")])] :=
  ((relayMessage_spec onePeerState "q1" ⟨[("type", "offer"), ("targetPeerId", "zz"),
      ("sdp", "x")]⟩).2.1 rfl).2 ⟨"q1", "10.0.0.1", 0, []⟩ rfl

/-- Counterexample to C4 as stated: the error sent back for a dead target is
`{type: "error", message: "Target peer not found", targetPeerId}`, not the
claimed `{type: "error", reason: "peer unavailable", targetId}`. -/
theorem relayMessage_error_shape_counterexample :
    relayMessage onePeerState "q1" ⟨[("type", "offer"), ("targetPeerId", "zz"),
      ("sdp", "x")]⟩ =
      [("q1",
        [("type", "error"), ("message", "Target peer not found"),
         ("targetPeerId", "zz")])] ∧
    ([("type", "error"), ("message", "Target peer not found"),
      ("targetPeerId", "zz")] : List (String × String)) ≠
      [("type", "error"), ("reason", "peer unavailable"), ("targetId", "zz")] := by
  refine ⟨by decide, by decide⟩

theorem mapLookup_mapSet_ne {α : Type} {k k' : String} (v : α) (m : List (String × α))
    (h : k' ≠ k) : mapLookup k' (mapSet k v m) = mapLookup k' m := by
  have hk : ¬k = k' := fun hc => h hc.symm
  induction m with
  | nil => simp [mapSet, mapLookup, hk]
  | cons e rest ih =>
    by_cases he : e.1 = k
    · simp [mapSet, mapLookup, he, hk]
    · by_cases he' : e.1 = k' <;> simp [mapSet, mapLookup, he, he', ih, h]

theorem cancelTransfer_lookup_none (s : ManagerState) (transferId : String) :
    mapLookup transferId (cancelTransfer s transferId).transfers = none := by
  rw [cancelTransfer]
  rcases h : mapLookup transferId s.transfers with _ | t
  · simpa using h
  · simpa using mapLookup_mapDelete_self transferId s.transfers

theorem completeTransfer_lookup_none (s : ManagerState) (transferId : String) :
    mapLookup transferId (completeTransfer s transferId).transfers = none := by
  rw [completeTransfer]
  rcases h : mapLookup transferId s.transfers with _ | t
  · simpa using h
  · simpa using mapLookup_mapDelete_self transferId s.transfers

/-- C7: after `cancelTransfer` or `completeTransfer` has removed a session, a
stale chunk-status callback for that session id is a complete no-op: it
returns the state unchanged, schedules nothing and raises nothing. -/
theorem staleCallback_noop (s : ManagerState) (transferId : String) (chunkIndex : Nat)
    (status : ChunkStatus) (peerId : Option String) :
    updateChunkStatus (cancelTransfer s transferId) transferId chunkIndex status peerId =
      (cancelTransfer s transferId, []) ∧
    updateChunkStatus (completeTransfer s transferId) transferId chunkIndex status peerId =
      (completeTransfer s transferId, []) := by
  constructor
  · rw [updateChunkStatus, cancelTransfer_lookup_none]
  · rw [updateChunkStatus, completeTransfer_lookup_none]

theorem sum_chunkSizes (n s : Nat) (h : 1 ≤ n) :
    ((List.range n).map fun i => if i = n - 1 then s - i * (s / n) else s / n).sum = s := by
  obtain ⟨m, rfl⟩ : ∃ m, n = m + 1 := ⟨n - 1, by omega⟩
  rw [List.range_succ, List.map_append, List.sum_append]
  have hrepl : ((List.range m).map fun i =>
      if i = m + 1 - 1 then s - i * (s / (m + 1)) else s / (m + 1)) =
      List.replicate m (s / (m + 1)) := by
    refine List.eq_replicate_iff.mpr ⟨by simp, ?_⟩
    intro b hb
    obtain ⟨i, hi, rfl⟩ := List.mem_map.mp hb
    have : i < m := List.mem_range.mp hi
    rw [if_neg (by omega)]
  rw [hrepl, List.sum_replicate, smul_eq_mul]
  simp only [List.map_cons, List.map_nil, List.sum_cons, List.sum_nil, Nat.add_sub_cancel,
    eq_self_iff_true, if_true]
  have hle : m * (s / (m + 1)) ≤ s := by
    calc m * (s / (m + 1)) ≤ (m + 1) * (s / (m + 1)) :=
          Nat.mul_le_mul_right _ (by omega)
    _ = s / (m + 1) * (m + 1) := Nat.mul_comm _ _
    _ ≤ s := Nat.div_mul_le_self s (m + 1)
  omega

/-- C10: `createTransfer` builds exactly `totalChunks` chunks, indexed
`0 .. totalChunks-1`, each `pending` with zero attempts; every non-final chunk
has size `floor(fileSize / totalChunks)`, the final chunk takes the remainder,
and the sizes sum to `fileSize`; the transfer starts `pending` with progress
0. -/
theorem createTransfer_spec (transferId fileName : String) (fileSize : Nat)
    (direction : String) (totalChunks now : Nat) (h : 1 ≤ totalChunks) :
    (createTransfer transferId fileName fileSize direction totalChunks now).chunks.length
      = totalChunks ∧
    (∀ i, i < totalChunks →
      (createTransfer transferId fileName fileSize direction totalChunks now).chunks.get? i
        = some
          { index := i
            size :=
              if i = totalChunks - 1
              then fileSize - (totalChunks - 1) * (fileSize / totalChunks)
              else fileSize / totalChunks
            status := .pending
            peerId := none
            attempts := 0 }) ∧
    ((createTransfer transferId fileName fileSize direction totalChunks
        now).chunks.map (·.size)).sum = fileSize ∧
    (createTransfer transferId fileName fileSize direction totalChunks now).status
      = .pending ∧
    (createTransfer transferId fileName fileSize direction totalChunks now).progress
      = 0 := by
  refine ⟨by simp [createTransfer], ?_, ?_, rfl, rfl⟩
  · intro i hi
    rw [createTransfer]
    dsimp only
    rw [List.get?_eq_getElem?, List.getElem?_map, List.getElem?_range hi]
    by_cases hlast : i = totalChunks - 1
    · simp [hlast]
    · simp [hlast]
  · rw [createTransfer]
    dsimp only
    rw [List.map_map]
    have hcomp : ((fun c : TransferChunk => c.size) ∘ fun index =>
        ({ index := index
           size :=
             if index = totalChunks - 1 then fileSize - index * (fileSize / totalChunks)
             else fileSize / totalChunks
           status := .pending
           peerId := none
           attempts := 0 } : TransferChunk)) = fun i =>
        if i = totalChunks - 1 then fileSize - i * (fileSize / totalChunks)
        else fileSize / totalChunks := rfl
    rw [hcomp]
    exact sum_chunkSizes totalChunks fileSize h

/-- Witness: a 10-byte file in 4 chunks gets sizes 2,2,2,4 summing to 10. -/
theorem createTransfer_spec_witness :
    (createTransfer "t1" "a.bin" 10 "download" 4 0).chunks.length = 4 ∧
    ((createTransfer "t1" "a.bin" 10 "download" 4 0).chunks.map (·.size)).sum = 10 :=
  ⟨(createTransfer_spec "t1" "a.bin" 10 "download" 4 0 (by decide)).1,
   (createTransfer_spec "t1" "a.bin" 10 "download" 4 0 (by decide)).2.2.1⟩

theorem get?_set_self {α : Type} (l : List α) (i : Nat) (a : α) (h : i < l.length) :
    (l.set i a).get? i = some a := by
  rw [List.get?_eq_getElem?, List.getElem?_set_self]
  · simp [List.getElem?_eq_getElem, h]

theorem get?_some_lt {α : Type} {l : List α} {i : Nat} {a : α} (h : l.get? i = some a) :
    i < l.length := by
  by_contra hlt
  rw [List.get?_eq_none.mpr (Nat.le_of_not_lt hlt)] at h
  exact Option.noConfusion h

/-- C5 (amended): on a chunk failure the attempt counter is incremented and
the chunk marked `failed`; while `attempts < 3` a retry is scheduled after
`2000 * attempts` ms — which equals `1000 * 2 ^ attempts` for the only
reachable retry counts 1 and 2 — and firing the retry re-marks the chunk
`pending`; once `attempts` reaches 3 no retry is ever scheduled again, and the
owning session's status is left unchanged (it does not transition to failed
and no reason is recorded). -/
theorem chunkFailure_retryPolicy (s : ManagerState) (transferId : String)
    (chunkIndex : Nat) (pid : Option String) (t : Transfer) (c : TransferChunk)
    (ht : mapLookup transferId s.transfers = some t)
    (hc : t.chunks.get? chunkIndex = some c) :
    chunkAttemptsAt (updateChunkStatus s transferId chunkIndex .failed pid).1
        transferId chunkIndex = some (c.attempts + 1) ∧
    chunkStatusAt (updateChunkStatus s transferId chunkIndex .failed pid).1
        transferId chunkIndex = some .failed ∧
    (c.attempts + 1 < 3 →
      (updateChunkStatus s transferId chunkIndex .failed pid).2 =
        [.retryChunk transferId chunkIndex (2000 * (c.attempts + 1))] ∧
      2000 * (c.attempts + 1) = 1000 * 2 ^ (c.attempts + 1) ∧
      chunkStatusAt
        (updateChunkStatus (updateChunkStatus s transferId chunkIndex .failed pid).1
          transferId chunkIndex .pending none).1 transferId chunkIndex =
        some .pending) ∧
    (3 ≤ c.attempts + 1 →
      (updateChunkStatus s transferId chunkIndex .failed pid).2 = [] ∧
      statusOf (updateChunkStatus s transferId chunkIndex .failed pid).1 transferId =
        some t.status) := by
  have hlt : chunkIndex < t.chunks.length := get?_some_lt hc
  have hmain : updateChunkStatus s transferId chunkIndex .failed pid =
      ({ s with transfers := mapSet transferId
                              { t with chunks :=
                                  t.chunks.set chunkIndex (failedChunkUpdate c pid) }
                              s.transfers },
        if c.attempts + 1 < 3 then
          [.retryChunk transferId chunkIndex (2000 * (c.attempts + 1))]
        else []) := by
    rw [updateChunkStatus, ht]
    dsimp only
    rw [hc]
    dsimp only
    by_cases ha : c.attempts + 1 < 3 <;> simp [ha, failedChunkUpdate]
  rw [hmain]
  dsimp only
  refine ⟨?_, ?_, ?_, ?_⟩
  · rw [chunkAttemptsAt]
    dsimp only
    rw [mapLookup_mapSet_self]
    dsimp only [Option.bind]
    rw [get?_set_self _ _ _ hlt]
    rfl
  · rw [chunkStatusAt]
    dsimp only
    rw [mapLookup_mapSet_self]
    dsimp only [Option.bind]
    rw [get?_set_self _ _ _ hlt]
    rfl
  · intro ha
    refine ⟨by rw [if_pos ha], ?_, ?_⟩
    · have : c.attempts = 0 ∨ c.attempts = 1 := by omega
      rcases this with h0 | h0 <;> rw [h0] <;> norm_num
    · rw [updateChunkStatus]
      dsimp only
      rw [mapLookup_mapSet_self]
      dsimp only
      rw [get?_set_self _ _ _ hlt]
      dsimp only
      rw [chunkStatusAt]
      dsimp only
      rw [mapLookup_mapSet_self]
      dsimp only [Option.bind]
      rw [get?_set_self _ _ _ (by rw [List.length_set]; exact hlt)]
      rfl
  · intro ha
    refine ⟨by rw [if_neg (by omega)], ?_⟩
    rw [statusOf]
    dsimp only
    rw [mapLookup_mapSet_self]
    rfl

/-- Witness: the first failure of chunk 0 schedules one retry after 2000 ms,
the exponential-backoff value for attempt 1. -/
theorem chunkFailure_retryPolicy_witness :
    (updateChunkStatus retryState "t1" 0 .failed none).2 =
      [.retryChunk "t1" 0 (2000 * (0 + 1))] ∧
    2000 * (0 + 1) = 1000 * 2 ^ (0 + 1) :=
  ⟨((chunkFailure_retryPolicy retryState "t1" 0 none _ _ rfl rfl).2.2.1
      (by decide)).1,
   ((chunkFailure_retryPolicy retryState "t1" 0 none _ _ rfl rfl).2.2.1
      (by decide)).2.1⟩

/-- Counterexample to C5 as stated: when chunk 0 fails for the third time
(`attempts` reaches `maxAttempts = 3`), no retry is scheduled but the owning
session stays `active` — it does not transition to `failed`, and no reason
naming the chunk exists anywhere in the state. -/
theorem chunk_exhaustion_counterexample :
    (updateChunkStatus exhaustState "t1" 0 .failed none).2 = [] ∧
    statusOf (updateChunkStatus exhaustState "t1" 0 .failed none).1 "t1" =
      some .active ∧
    TransferStatus.active ≠ .failed := by
  refine ⟨by decide, by decide, by decide⟩

theorem completedCount_cons (x : TransferChunk) (l : List TransferChunk) :
    completedCount (x :: l) =
      (if x.status = ChunkStatus.completed then 1 else 0) + completedCount l := by
  by_cases h : x.status = ChunkStatus.completed <;>
    simp [completedCount, List.filter_cons, h] <;> omega

theorem completedCount_set_ge (l : List TransferChunk) (i : Nat) (cnew : TransferChunk)
    (hnew : cnew.status = ChunkStatus.completed) :
    completedCount l ≤ completedCount (l.set i cnew) := by
  induction l generalizing i with
  | nil => simp [List.set]
  | cons x rest ih =>
    cases i with
    | zero =>
      rw [List.set_cons_zero, completedCount_cons, completedCount_cons, hnew]
      have h1 : (if x.status = ChunkStatus.completed then (1 : Nat) else 0) ≤ 1 := by
        split <;> omega
      have h2 : (if ChunkStatus.completed = ChunkStatus.completed then (1 : Nat) else 0)
          = 1 := by simp
      omega
    | succ n =>
      rw [List.set_cons_succ, completedCount_cons, completedCount_cons]
      exact Nat.add_le_add (Nat.le_refl _) (ih n)

theorem completedCount_set_eq_of_not (l : List TransferChunk) (i : Nat)
    (c cnew : TransferChunk) (hc : l.get? i = some c)
    (hcold : c.status ≠ ChunkStatus.completed)
    (hnew : cnew.status ≠ ChunkStatus.completed) :
    completedCount (l.set i cnew) = completedCount l := by
  induction l generalizing i with
  | nil => exact Option.noConfusion hc
  | cons x rest ih =>
    cases i with
    | zero =>
      have hx : x = c := by
        have : some x = some c := hc
        exact Option.some.inj this
      subst hx
      rw [List.set_cons_zero, completedCount_cons, completedCount_cons,
        if_neg hcold, if_neg hnew]
    | succ n =>
      rw [List.set_cons_succ, completedCount_cons, completedCount_cons,
        ih n hc]

theorem completedCount_le_length (l : List TransferChunk) :
    completedCount l ≤ l.length := by
  rw [completedCount]
  exact List.length_filter_le _ l

theorem updateChunkStatus_completed_eq (s : ManagerState) (tid : String) (i : Nat)
    (pid : Option String) (t : Transfer) (c : TransferChunk)
    (ht : mapLookup tid s.transfers = some t) (hc : t.chunks.get? i = some c) :
    updateChunkStatus s tid i .completed pid =
      (if completedCount (t.chunks.set i (chunkWithStatus .completed c pid)) =
          (t.chunks.set i (chunkWithStatus .completed c pid)).length
       then (completeTransfer
              { s with transfers := mapSet tid (ackTransfer t i c pid) s.transfers } tid,
             [])
       else ({ s with transfers := mapSet tid (ackTransfer t i c pid) s.transfers },
             [])) := by
  rw [updateChunkStatus, ht]
  dsimp only
  rw [hc]
  rfl

theorem updateChunkStatus_inert_eq (s : ManagerState) (tid : String) (i : Nat)
    (pid : Option String) (t : Transfer) (c : TransferChunk) (st : ChunkStatus)
    (hst : st = ChunkStatus.pending ∨ st = ChunkStatus.downloading)
    (ht : mapLookup tid s.transfers = some t) (hc : t.chunks.get? i = some c) :
    updateChunkStatus s tid i st pid =
      ({ s with transfers := mapSet tid
                              { t with chunks := t.chunks.set i (chunkWithStatus st c pid) }
                              s.transfers },
       []) := by
  rcases hst with rfl | rfl <;>
    · rw [updateChunkStatus, ht]
      dsimp only
      rw [hc]
      rfl

theorem updateChunkStatus_failed_eq (s : ManagerState) (tid : String) (i : Nat)
    (pid : Option String) (t : Transfer) (c : TransferChunk)
    (ht : mapLookup tid s.transfers = some t) (hc : t.chunks.get? i = some c) :
    updateChunkStatus s tid i .failed pid =
      ({ s with transfers := mapSet tid
                              { t with chunks := t.chunks.set i (failedChunkUpdate c pid) }
                              s.transfers },
       if c.attempts + 1 < 3 then
         [.retryChunk tid i (2000 * (c.attempts + 1))]
       else []) := by
  rw [updateChunkStatus, ht]
  dsimp only
  rw [hc]
  dsimp only
  by_cases ha : c.attempts + 1 < 3 <;> simp [ha, failedChunkUpdate]

theorem applyChunkEvent_noop (s : ManagerState) (e : ChunkEvent)
    (h : mapLookup e.transferId s.transfers = none) : applyChunkEvent s e = s := by
  rw [applyChunkEvent, updateChunkStatus, h]

theorem applyChunkEvent_noChunk (s : ManagerState) (e : ChunkEvent) (t : Transfer)
    (ht : mapLookup e.transferId s.transfers = some t)
    (hc : t.chunks.get? e.chunkIndex = none) : applyChunkEvent s e = s := by
  rw [applyChunkEvent, updateChunkStatus, ht]
  dsimp only
  rw [hc]

theorem applyChunkEvent_lookup_other (s : ManagerState) (e : ChunkEvent) (tid : String)
    (htid : tid ≠ e.transferId) :
    mapLookup tid (applyChunkEvent s e).transfers = mapLookup tid s.transfers := by
  rcases h1 : mapLookup e.transferId s.transfers with _ | t
  · rw [applyChunkEvent_noop s e h1]
  · rcases h2 : t.chunks.get? e.chunkIndex with _ | c
    · rw [applyChunkEvent_noChunk s e t h1 h2]
    · cases hst : e.status
      case completed =>
        rw [applyChunkEvent, hst, updateChunkStatus_completed_eq s e.transferId e.chunkIndex
          e.peerId t c h1 h2]
        split
        · dsimp only
          rw [completeTransfer, mapLookup_mapSet_self]
          dsimp only
          rw [mapLookup_mapDelete_ne _ htid, mapLookup_mapSet_ne _ _ htid]
        · dsimp only
          rw [mapLookup_mapSet_ne _ _ htid]
      case failed =>
        rw [applyChunkEvent, hst, updateChunkStatus_failed_eq s e.transferId e.chunkIndex
          e.peerId t c h1 h2]
        dsimp only
        rw [mapLookup_mapSet_ne _ _ htid]
      case pending =>
        rw [applyChunkEvent, hst, updateChunkStatus_inert_eq s e.transferId e.chunkIndex
          e.peerId t c .pending (Or.inl rfl) h1 h2]
        dsimp only
        rw [mapLookup_mapSet_ne _ _ htid]
      case downloading =>
        rw [applyChunkEvent, hst, updateChunkStatus_inert_eq s e.transferId e.chunkIndex
          e.peerId t c .downloading (Or.inr rfl) h1 h2]
        dsimp only
        rw [mapLookup_mapSet_ne _ _ htid]

theorem progressOf_none_applyChunkEvent (s : ManagerState) (e : ChunkEvent) (tid : String)
    (h : progressOf s tid = none) : progressOf (applyChunkEvent s e) tid = none := by
  by_cases htid : tid = e.transferId
  · rw [progressOf] at h
    rcases hl : mapLookup tid s.transfers with _ | t
    · have hl' : mapLookup e.transferId s.transfers = none := by
        rw [← htid]
        exact hl
      rw [applyChunkEvent_noop s e hl', progressOf, hl]
      rfl
    · rw [hl] at h
      exact Option.noConfusion h
  · rw [progressOf, applyChunkEvent_lookup_other s e tid htid]
    exact h

theorem progressOf_none_applyChunkEvents (events : List ChunkEvent) (s : ManagerState)
    (tid : String) (h : progressOf s tid = none) :
    progressOf (applyChunkEvents s events) tid = none := by
  induction events generalizing s with
  | nil => exact h
  | cons e es ih =>
    rw [applyChunkEvents, List.foldl_cons]
    exact ih _ (progressOf_none_applyChunkEvent s e tid h)

theorem chunkStatusAt_of (s : ManagerState) (tid : String) (i : Nat) (t : Transfer)
    (c : TransferChunk) (ht : mapLookup tid s.transfers = some t)
    (hc : t.chunks.get? i = some c) : chunkStatusAt s tid i = some c.status := by
  rw [chunkStatusAt, ht]
  dsimp only [Option.bind]
  rw [hc]
  rfl

theorem completeTransfer_lookup_other (s : ManagerState) (tid tid' : String)
    (h : tid' ≠ tid) :
    mapLookup tid' (completeTransfer s tid).transfers = mapLookup tid' s.transfers := by
  rcases hl : mapLookup tid s.transfers with _ | t
  · simp [completeTransfer, hl]
  · simp only [completeTransfer, hl]
    exact mapLookup_mapDelete_ne _ h

theorem step_inv_mono (s : ManagerState) (e : ChunkEvent)
    (hinv : ProgressInvState s) (hok : okEvent s e) :
    ProgressInvState (applyChunkEvent s e) ∧
    (∀ q q', progressOf s e.transferId = some q →
      progressOf (applyChunkEvent s e) e.transferId = some q' → q ≤ q') := by
  rcases h1 : mapLookup e.transferId s.transfers with _ | t
  · rw [applyChunkEvent_noop s e h1]
    refine ⟨hinv, fun q q' hq hq' => ?_⟩
    rw [hq] at hq'
    exact le_of_eq (Option.some.inj hq')
  · rcases h2 : t.chunks.get? e.chunkIndex with _ | c
    · rw [applyChunkEvent_noChunk s e t h1 h2]
      refine ⟨hinv, fun q q' hq hq' => ?_⟩
      rw [hq] at hq'
      exact le_of_eq (Option.some.inj hq')
    · have hq0 : t.progress =
          (completedCount t.chunks : ℚ) / (t.chunks.length : ℚ) * 100 := hinv _ _ h1
      have hilen : e.chunkIndex < t.chunks.length := get?_some_lt h2
      cases hst : e.status
      case completed =>
        rw [applyChunkEvent, hst, updateChunkStatus_completed_eq s e.transferId
          e.chunkIndex e.peerId t c h1 h2]
        split
        · constructor
          · intro tid' t' ht'
            dsimp only at ht'
            by_cases htid : tid' = e.transferId
            · rw [htid, completeTransfer_lookup_none] at ht'
              exact Option.noConfusion ht'
            · rw [completeTransfer_lookup_other _ _ _ htid] at ht'
              dsimp only at ht'
              rw [mapLookup_mapSet_ne _ _ htid] at ht'
              exact hinv _ _ ht'
          · intro q q' hq hq'
            dsimp only at hq'
            rw [progressOf, completeTransfer_lookup_none] at hq'
            exact Option.noConfusion hq'
        · constructor
          · intro tid' t' ht'
            dsimp only at ht'
            by_cases htid : tid' = e.transferId
            · rw [htid, mapLookup_mapSet_self] at ht'
              rw [← Option.some.inj ht']
              rfl
            · rw [mapLookup_mapSet_ne _ _ htid] at ht'
              exact hinv _ _ ht'
          · intro q q' hq hq'
            rw [progressOf, h1] at hq
            dsimp only at hq'
            rw [progressOf, mapLookup_mapSet_self] at hq'
            have hq2 : t.progress = q := Option.some.inj hq
            have hq2' : (ackTransfer t e.chunkIndex c e.peerId).progress = q' :=
              Option.some.inj hq'
            rw [← hq2, ← hq2', hq0, ackTransfer]
            dsimp only
            rw [List.length_set]
            have hcle : (completedCount t.chunks : ℚ) ≤
                (completedCount (t.chunks.set e.chunkIndex
                  (chunkWithStatus .completed c e.peerId)) : ℚ) := by
              exact_mod_cast completedCount_set_ge t.chunks e.chunkIndex _ rfl
            have hlenpos : (0 : ℚ) < (t.chunks.length : ℚ) := by
              exact_mod_cast Nat.lt_of_le_of_lt (Nat.zero_le _) hilen
            exact mul_le_mul_of_nonneg_right
              ((div_le_div_iff_of_pos_right hlenpos).mpr hcle) (by norm_num)
      case failed =>
        rw [applyChunkEvent, hst, updateChunkStatus_failed_eq s e.transferId
          e.chunkIndex e.peerId t c h1 h2]
        have hcold : c.status ≠ ChunkStatus.completed := by
          rcases hok with h | h
          · rw [hst] at h
            exact absurd h (by decide)
          · exact h c.status (chunkStatusAt_of s e.transferId e.chunkIndex t c h1 h2)
        have hcount : completedCount (t.chunks.set e.chunkIndex
            (failedChunkUpdate c e.peerId)) = completedCount t.chunks :=
          completedCount_set_eq_of_not _ _ c _ h2 hcold (by simp [failedChunkUpdate])
        constructor
        · intro tid' t' ht'
          dsimp only at ht'
          by_cases htid : tid' = e.transferId
          · rw [htid, mapLookup_mapSet_self] at ht'
            rw [← Option.some.inj ht']
            dsimp only
            rw [List.length_set, hcount]
            exact hq0
          · rw [mapLookup_mapSet_ne _ _ htid] at ht'
            exact hinv _ _ ht'
        · intro q q' hq hq'
          rw [progressOf, h1] at hq
          dsimp only at hq'
          rw [progressOf, mapLookup_mapSet_self] at hq'
          rw [← Option.some.inj hq, ← Option.some.inj hq']
      case pending =>
        rw [applyChunkEvent, hst, updateChunkStatus_inert_eq s e.transferId
          e.chunkIndex e.peerId t c .pending (Or.inl rfl) h1 h2]
        have hcold : c.status ≠ ChunkStatus.completed := by
          rcases hok with h | h
          · rw [hst] at h
            exact absurd h (by decide)
          · exact h c.status (chunkStatusAt_of s e.transferId e.chunkIndex t c h1 h2)
        have hcount : completedCount (t.chunks.set e.chunkIndex
            (chunkWithStatus .pending c e.peerId)) = completedCount t.chunks :=
          completedCount_set_eq_of_not _ _ c _ h2 hcold (by simp [chunkWithStatus])
        constructor
        · intro tid' t' ht'
          dsimp only at ht'
          by_cases htid : tid' = e.transferId
          · rw [htid, mapLookup_mapSet_self] at ht'
            rw [← Option.some.inj ht']
            dsimp only
            rw [List.length_set, hcount]
            exact hq0
          · rw [mapLookup_mapSet_ne _ _ htid] at ht'
            exact hinv _ _ ht'
        · intro q q' hq hq'
          rw [progressOf, h1] at hq
          dsimp only at hq'
          rw [progressOf, mapLookup_mapSet_self] at hq'
          rw [← Option.some.inj hq, ← Option.some.inj hq']
      case downloading =>
        rw [applyChunkEvent, hst, updateChunkStatus_inert_eq s e.transferId
          e.chunkIndex e.peerId t c .downloading (Or.inr rfl) h1 h2]
        have hcold : c.status ≠ ChunkStatus.completed := by
          rcases hok with h | h
          · rw [hst] at h
            exact absurd h (by decide)
          · exact h c.status (chunkStatusAt_of s e.transferId e.chunkIndex t c h1 h2)
        have hcount : completedCount (t.chunks.set e.chunkIndex
            (chunkWithStatus .downloading c e.peerId)) = completedCount t.chunks :=
          completedCount_set_eq_of_not _ _ c _ h2 hcold (by simp [chunkWithStatus])
        constructor
        · intro tid' t' ht'
          dsimp only at ht'
          by_cases htid : tid' = e.transferId
          · rw [htid, mapLookup_mapSet_self] at ht'
            rw [← Option.some.inj ht']
            dsimp only
            rw [List.length_set, hcount]
            exact hq0
          · rw [mapLookup_mapSet_ne _ _ htid] at ht'
            exact hinv _ _ ht'
        · intro q q' hq hq'
          rw [progressOf, h1] at hq
          dsimp only at hq'
          rw [progressOf, mapLookup_mapSet_self] at hq'
          rw [← Option.some.inj hq, ← Option.some.inj hq']

theorem progress_mono_ofEvents (events : List ChunkEvent) (s : ManagerState)
    (tid : String) (q q' : ℚ) (hinv : ProgressInvState s) (hok : OkEvents s events)
    (hq : progressOf s tid = some q)
    (hq' : progressOf (applyChunkEvents s events) tid = some q') : q ≤ q' := by
  induction events generalizing s q with
  | nil =>
    rw [applyChunkEvents, List.foldl_nil] at hq'
    rw [hq] at hq'
    exact le_of_eq (Option.some.inj hq')
  | cons e es ih =>
    obtain ⟨hoke, hokes⟩ := hok
    have hstep := step_inv_mono s e hinv hoke
    rw [applyChunkEvents, List.foldl_cons] at hq'
    rcases hmid : progressOf (applyChunkEvent s e) tid with _ | q1
    · have : progressOf (applyChunkEvents (applyChunkEvent s e) es) tid = none :=
        progressOf_none_applyChunkEvents es _ tid hmid
      rw [applyChunkEvents] at this
      rw [this] at hq'
      exact Option.noConfusion hq'
    · have hq1 : q ≤ q1 := by
        by_cases htid : tid = e.transferId
        · subst htid
          exact hstep.2 q q1 hq hmid
        · rw [progressOf, applyChunkEvent_lookup_other s e tid htid] at hmid
          rw [progressOf, hmid] at hq
          exact le_of_eq (Option.some.inj hq.symm)
      have hq2 : q1 ≤ q' := ih (applyChunkEvent s e) q1 hstep.1 hokes hmid hq'
      exact le_trans hq1 hq2

/-- C6 (amended): progress is recomputed as
`completedChunks / totalChunks * 100` on every chunk acknowledgement, and over
any run of chunk callbacks in which no already-completed chunk is demoted
(marked failed or pending by a stale callback) the progress of a live session
is non-decreasing.  (A stale failure callback on a completed chunk can shrink
the completed count, after which the next acknowledgement recomputes a lower
progress — see the counterexample.) -/
theorem transferProgress_spec :
    (∀ (s : ManagerState) (tid : String) (i : Nat) (pid : Option String)
        (t : Transfer) (c : TransferChunk) (t' : Transfer),
        mapLookup tid s.transfers = some t → t.chunks.get? i = some c →
        mapLookup tid (updateChunkStatus s tid i .completed pid).1.transfers = some t' →
        t'.progress = (completedCount t'.chunks : ℚ) / (t'.chunks.length : ℚ) * 100) ∧
    (∀ (events : List ChunkEvent) (s : ManagerState) (tid : String) (q q' : ℚ),
        ProgressInvState s → OkEvents s events →
        progressOf s tid = some q →
        progressOf (applyChunkEvents s events) tid = some q' → q ≤ q') := by
  constructor
  · intro s tid i pid t c t' ht hc ht'
    rw [updateChunkStatus_completed_eq s tid i pid t c ht hc] at ht'
    split at ht'
    · dsimp only at ht'
      rw [completeTransfer_lookup_none] at ht'
      exact Option.noConfusion ht'
    · dsimp only at ht'
      rw [mapLookup_mapSet_self] at ht'
      rw [← Option.some.inj ht']
      rfl
  · exact progress_mono_ofEvents

/-- Witness: acknowledging chunk 0 of a two-chunk transfer leaves a stored
progress equal to completedChunks / totalChunks · 100. -/
theorem transferProgress_spec_witness :
    ackedTransfer.progress =
      (completedCount ackedTransfer.chunks : ℚ) / (ackedTransfer.chunks.length : ℚ) * 100 :=
  transferProgress_spec.1 retryState "t1" 0 none _ _ ackedTransfer rfl rfl rfl

/-- Counterexample to C6 as stated: acknowledging chunks 0 and 1 yields
progress 2/3 · 100; stale failure callbacks then demote both completed chunks
and a re-acknowledgement of chunk 0 recomputes progress 1/3 · 100 — a strict
decrease — although the session status was `active`, never `failed`, at every
step. -/
theorem progress_decrease_counterexample :
    progressOf (applyChunkEvents monoState
      [⟨"t", 0, .completed, none⟩, ⟨"t", 1, .completed, none⟩]) "t" =
      some ((completedCount twoAckedChunks : ℚ) / (twoAckedChunks.length : ℚ) * 100) ∧
    progressOf (applyChunkEvents monoState
      [⟨"t", 0, .completed, none⟩, ⟨"t", 1, .completed, none⟩,
       ⟨"t", 0, .failed, none⟩, ⟨"t", 1, .failed, none⟩,
       ⟨"t", 0, .completed, none⟩]) "t" =
      some ((completedCount staleChunks : ℚ) / (staleChunks.length : ℚ) * 100) ∧
    (completedCount staleChunks : ℚ) / (staleChunks.length : ℚ) * 100 <
      (completedCount twoAckedChunks : ℚ) / (twoAckedChunks.length : ℚ) * 100 ∧
    statusOf (applyChunkEvents monoState
      [⟨"t", 0, .completed, none⟩, ⟨"t", 1, .completed, none⟩]) "t" = some .active ∧
    statusOf (applyChunkEvents monoState
      [⟨"t", 0, .completed, none⟩, ⟨"t", 1, .completed, none⟩,
       ⟨"t", 0, .failed, none⟩]) "t" = some .active ∧
    statusOf (applyChunkEvents monoState
      [⟨"t", 0, .completed, none⟩, ⟨"t", 1, .completed, none⟩,
       ⟨"t", 0, .failed, none⟩, ⟨"t", 1, .failed, none⟩]) "t" = some .active ∧
    statusOf (applyChunkEvents monoState
      [⟨"t", 0, .completed, none⟩, ⟨"t", 1, .completed, none⟩,
       ⟨"t", 0, .failed, none⟩, ⟨"t", 1, .failed, none⟩,
       ⟨"t", 0, .completed, none⟩]) "t" = some .active := by
  refine ⟨rfl, rfl, ?_, by decide, by decide, by decide, by decide⟩
  have h1 : completedCount staleChunks = 1 := by decide
  have h2 : completedCount twoAckedChunks = 2 := by decide
  have h3 : staleChunks.length = 3 := by decide
  have h4 : twoAckedChunks.length = 3 := by decide
  rw [h1, h2, h3, h4]
  norm_num
